import Mathlib

/-!
Verification development for the StoryTime TTS page-generation pipeline
(source: src/App.tsx and src/types.ts).

The data model and the operations are shallowly embedded: React state
becomes an explicit record `PipelineState`, each handler becomes a pure
state-transition function, the speech-synthesis collaborator becomes a
function parameter returning `Except String Nat` (the `Nat` stands for the
opaque audio blob), and the object-URL factory becomes a function
parameter `Nat -> String`.  Strings manipulated by the segmenter are
modelled as `List Char`.
-/

set_option autoImplicit false

/-! ### Data model (src/types.ts) -/

inductive Emotion
  | Calm | Happy | Sad | Shy | Gentle | Excited
deriving DecidableEq, Repr

inductive Tone
  | Soft | Warm | Friendly
deriving DecidableEq, Repr

inductive Speed
  | Slow | Normal | Fast
deriving DecidableEq, Repr

structure TTSConfig where
  emotion : Emotion
  tone : Tone
  speed : Speed
deriving DecidableEq, Repr

structure StoryPage where
  id : Nat
  content : List Char
deriving DecidableEq, Repr

structure GeneratedAudio where
  pageId : Nat
  blob : Nat
  url : String
  filename : String
deriving DecidableEq, Repr

/-! ### Page segmenter (App.tsx, parseFile)

The source splits the file text with the regular expression
`/Page\s+\d+/i`: a case-insensitive literal `page`, then one or more
whitespace characters, then one or more ASCII digits.  `splitAuxF` is a
left-to-right scanner equivalent to `String.prototype.split` with that
regex: at each position it tries to match the marker; on a match the
accumulated fragment is emitted and scanning resumes after the marker.
Fuel equal to the input length makes the recursion structural. -/

/-- Whitespace class of the JavaScript regex `\s` and of `String.trim`. -/
def isWS (c : Char) : Bool :=
  c.toNat = 9 || c.toNat = 10 || c.toNat = 11 || c.toNat = 12 || c.toNat = 13 ||
  c.toNat = 32 || c.toNat = 160 || c.toNat = 5760 ||
  (8192 ≤ c.toNat && c.toNat ≤ 8202) ||
  c.toNat = 8232 || c.toNat = 8233 || c.toNat = 8239 || c.toNat = 8287 ||
  c.toNat = 12288 || c.toNat = 65279

/-- Digit class of the JavaScript regex `\d` (ASCII digits only). -/
def isDigitC (c : Char) : Bool :=
  48 ≤ c.toNat && c.toNat ≤ 57

/-- Case-insensitive comparison against one letter, as the `i` flag gives. -/
def ciEq (c lo up : Char) : Bool :=
  c = lo || c = up

/-- Attempts to match `/Page\s+\d+/i` at the head of the list; on success
returns the remainder after the (greedily matched) marker. -/
def matchMarker : List Char → Option (List Char)
  | c1 :: c2 :: c3 :: c4 :: rest =>
    if ciEq c1 'p' 'P' && ciEq c2 'a' 'A' && ciEq c3 'g' 'G' && ciEq c4 'e' 'E' then
      match rest with
      | [] => none
      | w :: rest1 =>
        if isWS w then
          match rest1.dropWhile isWS with
          | [] => none
          | d :: rest2 =>
            if isDigitC d then some (rest2.dropWhile isDigitC) else none
        else none
    else none
  | _ => none

lemma length_dropWhile_le' (p : Char → Bool) (l : List Char) :
    (l.dropWhile p).length ≤ l.length := by
  induction l with
  | nil => simp [List.dropWhile]
  | cons c cs ih =>
    by_cases h : p c
    · simp [List.dropWhile, h]
      exact Nat.le_succ_of_le ih
    · simp [List.dropWhile, h]

lemma matchMarker_length {l rest : List Char} (h : matchMarker l = some rest) :
    rest.length + 1 ≤ l.length := by
  unfold matchMarker at h
  split at h
  case h_2 => exact absurd h (by simp)
  case h_1 c1 c2 c3 c4 r =>
    split at h
    case isFalse => exact absurd h (by simp)
    case isTrue =>
      split at h
      case h_1 => exact absurd h (by simp)
      case h_2 w r1 =>
        split at h
        case isFalse => exact absurd h (by simp)
        case isTrue =>
          split at h
          case h_1 => exact absurd h (by simp)
          case h_2 d r2 hd =>
            split at h
            case isFalse => exact absurd h (by simp)
            case isTrue =>
              have hrest : rest = r2.dropWhile isDigitC := by
                simpa using h.symm
              subst hrest
              have h1 : (r2.dropWhile isDigitC).length ≤ r2.length :=
                length_dropWhile_le' _ _
              have h2 : (d :: r2).length ≤ r1.length := by
                rw [← hd]; exact length_dropWhile_le' _ _
              simp only [List.length_cons] at h2 ⊢
              omega

/-- Fueled scanner implementing `text.split(/Page\s+\d+/i)`.  `acc` holds
the current fragment reversed.  With fuel at least the length of `l` the
fuel never runs out. -/
def splitAuxF : Nat → List Char → List Char → List (List Char)
  | 0, l, acc => [acc.reverse ++ l]
  | _ + 1, [], acc => [acc.reverse]
  | fuel + 1, c :: cs, acc =>
    match matchMarker (c :: cs) with
    | some rest => acc.reverse :: splitAuxF fuel rest []
    | none => splitAuxF fuel cs (c :: acc)

/-- The split of the whole text, as `String.prototype.split` returns it. -/
def splitChars (l : List Char) : List (List Char) :=
  splitAuxF l.length l []

/-- Model of `String.prototype.trim`: removes leading and trailing
whitespace. -/
def trimChars (l : List Char) : List Char :=
  ((l.dropWhile isWS).reverse.dropWhile isWS).reverse

/-- Model of `parseFile`s segmentation (App.tsx lines 39 to 47): split on
the marker regex, keep the fragments whose trim is non-empty, and number
the surviving fragments from 1 in split order, storing trimmed content. -/
def segmentPages (text : List Char) : List StoryPage :=
  let parts := (splitChars text).filter (fun p => 0 < (trimChars p).length)
  parts.enum.map (fun ip => ⟨ip.1 + 1, trimChars ip.2⟩)

/-- True when some position of the list begins a `/Page\s+\d+/i` match. -/
def hasMarker : List Char → Bool
  | [] => false
  | c :: cs => (matchMarker (c :: cs)).isSome || hasMarker cs

/-! ### Pipeline state and operations (App.tsx component state and handlers)

The React `useState` slots become the fields of `PipelineState`; the
source names are kept (`isProcessing` is what the spec calls `isRunning`,
`error` is what the spec calls `lastError`).  Each handler is a pure
function on this record; the speech synthesiser `ttsService.generateSpeech`
is a parameter `tts : List Char -> TTSConfig -> Except String Nat` and
`URL.createObjectURL` is a parameter `mkUrl : Nat -> String`. -/

structure PipelineState where
  file : Option String
  pages : List StoryPage
  config : TTSConfig
  isProcessing : Bool
  results : List GeneratedAudio
  error : Option String
  progressCurrent : Nat
  progressTotal : Nat
deriving DecidableEq, Repr

/-- The filename template of App.tsx line 78. -/
def audioFilename (n : Nat) : String :=
  ("Page_" ++ Nat.repr n ++ ".wav")

/-- Models the JavaScript fallback `err.message || defaultMessage` in the
catch clause of `generateAll`: an empty message is falsy, so the default
text is used. -/
def errFallback (e : String) : String :=
  if e = ("") then ("An error occurred during audio generation.") else e

/-- Value carried by a successful synthesis call; the default 0 is never
reached under an `exceptOk` hypothesis. -/
def okVal : Except String Nat → Nat
  | .ok b => b
  | .error _ => 0

/-- Boolean success test for a synthesis outcome. -/
def exceptOk : Except String Nat → Bool
  | .ok _ => true
  | .error _ => false

/-- Result of running a handler: the final state, the list of texts sent to
the synthesis collaborator in call order, and the object URLs created. -/
structure GenOutcome where
  state : PipelineState
  calls : List (List Char)
  created : List String
deriving DecidableEq, Repr

/-- The `GeneratedAudio` built at App.tsx lines 73 to 79 when synthesis of
a page succeeds with blob `b`. -/
def mkResult (mkUrl : Nat → String) (p : StoryPage) (b : Nat) : GeneratedAudio :=
  ⟨p.id, b, mkUrl b, audioFilename p.id⟩

/-- The for-loop body of `generateAll` (App.tsx lines 71 to 86) together
with the catch clause: processes the given pages sequentially, appending a
result and bumping the progress counter on each success, and stopping with
the error message recorded on the first failure.  No page after a failure
is sent to the collaborator. -/
def runPagesAux (tts : List Char → TTSConfig → Except String Nat)
    (mkUrl : Nat → String) : List StoryPage → PipelineState → GenOutcome
  | [], s => ⟨s, [], []⟩
  | p :: ps, s =>
    match tts p.content s.config with
    | .error e => ⟨{ s with error := some (errFallback e) }, [p.content], []⟩
    | .ok b =>
      let r := mkResult mkUrl p b
      let o := runPagesAux tts mkUrl ps
        { s with results := s.results ++ [r],
                 progressCurrent := s.progressCurrent + 1 }
      ⟨o.state, p.content :: o.calls, mkUrl b :: o.created⟩

/-- Model of `generateAll` (App.tsx lines 64 to 92): return unchanged when
there are no pages; otherwise set `isProcessing`, clear `results`, reset
the progress pair to `(0, pages.length)`, run the loop, and finally clear
`isProcessing`. -/
def generateAll (tts : List Char → TTSConfig → Except String Nat)
    (mkUrl : Nat → String) (s : PipelineState) : GenOutcome :=
  if s.pages.length = 0 then ⟨s, [], []⟩
  else
    let s1 : PipelineState :=
      { s with isProcessing := true, results := [],
               progressCurrent := 0, progressTotal := s.pages.length }
    let o := runPagesAux tts mkUrl s.pages s1
    ⟨{ o.state with isProcessing := false }, o.calls, o.created⟩

/-- Model of `previewSample` (App.tsx lines 94 to 105): with no pages it
does nothing; otherwise it synthesises the first 100 characters of the
first page once, leaving the state unchanged on success and setting only
the error slot on failure.  The second component lists the synthesis
calls made. -/
def previewSample (tts : List Char → TTSConfig → Except String Nat)
    (s : PipelineState) : PipelineState × List (List Char) :=
  match s.pages with
  | [] => (s, [])
  | p :: _ =>
    let sampleText := p.content.take 100
    match tts sampleText s.config with
    | .ok _ => (s, [sampleText])
    | .error _ =>
      ({ s with error := some ("Failed to preview audio.") }, [sampleText])

/-- Model of the success path of `parseFile` (App.tsx lines 39 to 53):
store the segmentation and the file, clear results and the error slot.
The progress pair is not written by this handler. -/
def parseFileOk (name : String) (text : List Char) (s : PipelineState) :
    PipelineState :=
  { s with pages := segmentPages text, file := some name,
           results := [], error := none }

/-- Model of the catch path of `parseFile` (App.tsx lines 54 to 55). -/
def parseFileErr (s : PipelineState) : PipelineState :=
  { s with error := some ("Failed to read the file. Please ensure it is a valid text file.") }

/-- Model of `reset` (App.tsx lines 116 to 122).  `isProcessing` and
`config` are not written by this handler. -/
def resetState (s : PipelineState) : PipelineState :=
  { s with file := none, pages := [], results := [], error := none,
           progressCurrent := 0, progressTotal := 0 }

/-- Model of the `isComplete` flag (App.tsx line 124). -/
def isComplete (s : PipelineState) : Bool :=
  decide (0 < s.results.length) &&
    (s.results.length == s.pages.length) && !s.isProcessing

/-! ### Session with live object URLs

`URL.createObjectURL` allocates a handle that stays live until
`URL.revokeObjectURL` is called on it.  The source never calls
`URL.revokeObjectURL`, so the handler models below only ever append to the
live-handle list. -/

structure Session where
  st : PipelineState
  liveUrls : List String
deriving DecidableEq, Repr

/-- `generateAll` at session level: every URL created by the run becomes a
live handle. -/
def generateAllS (tts : List Char → TTSConfig → Except String Nat)
    (mkUrl : Nat → String) (x : Session) : Session :=
  let o := generateAll tts mkUrl x.st
  ⟨o.state, x.liveUrls ++ o.created⟩

/-- `reset` at session level: the source revokes no URL here, so the live
handles are untouched. -/
def resetStateS (x : Session) : Session :=
  ⟨resetState x.st, x.liveUrls⟩

/-- `parseFile` (success path) at session level: the source revokes no URL
here either. -/
def parseFileOkS (name : String) (text : List Char) (x : Session) : Session :=
  ⟨parseFileOk name text x.st, x.liveUrls⟩

/-! ### Helper lemmas about dropWhile, trim and the marker -/

lemma dropWhile_head_false {p : Char → Bool} {l : List Char} {c : Char}
    {cs : List Char} (h : l.dropWhile p = c :: cs) : p c = false := by
  induction l with
  | nil => simp [List.dropWhile] at h
  | cons a as ih =>
    by_cases ha : p a
    · rw [List.dropWhile_cons, if_pos ha] at h; exact ih h
    · rw [List.dropWhile_cons, if_neg ha] at h
      cases h
      simpa using ha

lemma dropWhile_of_head_false {p : Char → Bool} {l : List Char}
    (h : ∀ c, l.head? = some c → p c = false) : l.dropWhile p = l := by
  cases l with
  | nil => rfl
  | cons a as =>
    rw [List.dropWhile_cons, if_neg]
    simp [h a rfl]

lemma dropWhile_dropWhile (p : Char → Bool) (l : List Char) :
    (l.dropWhile p).dropWhile p = l.dropWhile p := by
  cases hm : l.dropWhile p with
  | nil => rfl
  | cons c cs =>
    rw [List.dropWhile_cons, if_neg]
    simp [dropWhile_head_false hm]

lemma getLast?_dropWhile {p : Char → Bool} {l : List Char}
    (h : l.dropWhile p ≠ []) : (l.dropWhile p).getLast? = l.getLast? := by
  induction l with
  | nil => simp [List.dropWhile] at h
  | cons a as ih =>
    by_cases ha : p a
    · rw [List.dropWhile_cons, if_pos ha] at h ⊢
      have has : as ≠ [] := by
        intro e
        rw [e] at h
        exact h rfl
      rw [ih h]
      cases as with
      | nil => exact absurd rfl has
      | cons b bs => rfl
    · rw [List.dropWhile_cons, if_neg ha]

lemma dropWhile_append_ne {p : Char → Bool} {l : List Char} (r : List Char)
    (h : l.dropWhile p ≠ []) : (l ++ r).dropWhile p = l.dropWhile p ++ r := by
  induction l with
  | nil => simp [List.dropWhile] at h
  | cons a as ih =>
    by_cases ha : p a
    · rw [List.dropWhile_cons, if_pos ha] at h
      rw [List.cons_append, List.dropWhile_cons, if_pos ha,
        List.dropWhile_cons, if_pos ha]
      exact ih h
    · rw [List.cons_append, List.dropWhile_cons, if_neg ha,
        List.dropWhile_cons, if_neg ha, List.cons_append]

/-- Trimming is idempotent: a trimmed fragment trims to itself. -/
lemma trimChars_idem (l : List Char) : trimChars (trimChars l) = trimChars l := by
  unfold trimChars
  have h1 : ((l.dropWhile isWS).reverse.dropWhile isWS).reverse.dropWhile isWS =
      ((l.dropWhile isWS).reverse.dropWhile isWS).reverse := by
    apply dropWhile_of_head_false
    intro c hc
    rw [List.head?_reverse] at hc
    have hBne : (l.dropWhile isWS).reverse.dropWhile isWS ≠ [] := by
      intro e
      rw [e] at hc
      simp at hc
    rw [getLast?_dropWhile hBne, List.getLast?_reverse] at hc
    cases hA : l.dropWhile isWS with
    | nil => rw [hA] at hc; simp at hc
    | cons a as =>
      rw [hA] at hc
      simp only [List.head?_cons, Option.some.injEq] at hc
      subst hc
      exact dropWhile_head_false hA
  rw [h1, List.reverse_reverse, dropWhile_dropWhile]

/-- Every list is its leading whitespace, its trim, and its trailing
whitespace, in that order. -/
lemma trimChars_decomp (l : List Char) :
    l = l.takeWhile isWS ++
      (trimChars l ++ ((l.dropWhile isWS).reverse.takeWhile isWS).reverse) := by
  unfold trimChars
  have key : ((l.dropWhile isWS).reverse.dropWhile isWS).reverse ++
      ((l.dropWhile isWS).reverse.takeWhile isWS).reverse = l.dropWhile isWS := by
    rw [← List.reverse_append, List.takeWhile_append_dropWhile, List.reverse_reverse]
  rw [key, List.takeWhile_append_dropWhile]

/-- A marker match at the head survives appending further text: the
whitespace run is cut off by the first digit and the digit run only grows,
so the match cannot be destroyed on the right. -/
lemma matchMarker_extend {l : List Char} (r : List Char) {rest0 : List Char}
    (h : matchMarker l = some rest0) : (matchMarker (l ++ r)).isSome = true := by
  unfold matchMarker at h
  split at h
  case h_2 => exact absurd h (by simp)
  case h_1 c1 c2 c3 c4 rest =>
    split at h
    case isFalse => exact absurd h (by simp)
    case isTrue hg =>
      split at h
      case h_1 => exact absurd h (by simp)
      case h_2 w rest1 =>
        split at h
        case isFalse => exact absurd h (by simp)
        case isTrue hw =>
          split at h
          case h_1 => exact absurd h (by simp)
          case h_2 d rest2 hd =>
            split at h
            case isFalse => exact absurd h (by simp)
            case isTrue hdd =>
              have hne : rest1.dropWhile isWS ≠ [] := by
                rw [hd]; simp
              have hstep := dropWhile_append_ne (p := isWS) r hne
              rw [hd] at hstep
              simp only [List.cons_append] at hstep
              simp only [List.cons_append]
              simp only [matchMarker]
              rw [if_pos hg, if_pos hw, hstep]
              simp [hdd]

/-- A position list with a marker splits into a prefix and a non-empty
suffix at whose head the marker matches. -/
lemma hasMarker_exists {m : List Char} (h : hasMarker m = true) :
    ∃ x y, m = x ++ y ∧ y ≠ [] ∧ (matchMarker y).isSome = true := by
  induction m with
  | nil => simp [hasMarker] at h
  | cons c cs ih =>
    rw [hasMarker] at h
    rcases Bool.or_eq_true_iff.mp h with h | h
    · exact ⟨[], c :: cs, rfl, by simp, h⟩
    · obtain ⟨x, y, he, hy, hm⟩ := ih h
      exact ⟨c :: x, y, by simp [he], hy, hm⟩

/-- If the marker fails at every position of `m` even continuing into `l`,
then `m` itself holds no marker. -/
lemma hasMarker_of_no_suffix {m l : List Char}
    (hinv : ∀ x y, m = x ++ y → y ≠ [] → matchMarker (y ++ l) = none) :
    hasMarker m = false := by
  by_contra hcon
  have h : hasMarker m = true := by simpa using hcon
  obtain ⟨x, y, he, hy, hm⟩ := hasMarker_exists h
  obtain ⟨r0, hr0⟩ := Option.isSome_iff_exists.mp hm
  have hext := matchMarker_extend l hr0
  rw [hinv x y he hy] at hext
  simp at hext

lemma hasMarker_append_right {m : List Char} (b : List Char)
    (h : hasMarker m = true) : hasMarker (m ++ b) = true := by
  induction m with
  | nil => simp [hasMarker] at h
  | cons c cs ih =>
    rw [hasMarker] at h
    rw [List.cons_append, hasMarker]
    rcases Bool.or_eq_true_iff.mp h with h | h
    · obtain ⟨r0, hr0⟩ := Option.isSome_iff_exists.mp h
      have := matchMarker_extend b hr0
      rw [List.cons_append] at this
      simp [this]
    · simp [ih h]

lemma hasMarker_append_left (a : List Char) {m : List Char}
    (h : hasMarker m = true) : hasMarker (a ++ m) = true := by
  induction a with
  | nil => simpa
  | cons c cs ih =>
    rw [List.cons_append, hasMarker]
    simp [ih]

/-- A contiguous piece of a marker-free list is marker-free. -/
lemma hasMarker_infix_free {a m b : List Char}
    (h : hasMarker (a ++ (m ++ b)) = false) : hasMarker m = false := by
  by_contra hc
  have h1 : hasMarker m = true := by simpa using hc
  have h2 := hasMarker_append_left a (hasMarker_append_right b h1)
  rw [h] at h2
  exact absurd h2 (by simp)

/-- Scanner invariant: if the marker fails at every position already
accumulated (continuing into the unscanned input), then every fragment the
scanner emits is marker-free. -/
lemma splitAuxF_no_marker (fuel : Nat) :
    ∀ (l acc : List Char), l.length ≤ fuel →
      (∀ x y, acc.reverse = x ++ y → y ≠ [] → matchMarker (y ++ l) = none) →
      ∀ F ∈ splitAuxF fuel l acc, hasMarker F = false := by
  induction fuel with
  | zero =>
    intro l acc hlen hinv F hF
    have hl : l = [] := List.length_eq_zero.mp (Nat.le_zero.mp hlen)
    subst hl
    simp [splitAuxF] at hF
    subst hF
    exact hasMarker_of_no_suffix hinv
  | succ fuel ih =>
    intro l acc hlen hinv F hF
    cases l with
    | nil =>
      simp [splitAuxF] at hF
      subst hF
      exact hasMarker_of_no_suffix hinv
    | cons c cs =>
      rw [splitAuxF] at hF
      cases hm : matchMarker (c :: cs) with
      | some rest =>
        rw [hm] at hF
        rcases List.mem_cons.mp hF with hF | hF
        · subst hF
          exact hasMarker_of_no_suffix hinv
        · have hrl : rest.length ≤ fuel := by
            have h1 := matchMarker_length hm
            simp only [List.length_cons] at h1 hlen
            omega
          refine ih rest [] hrl ?_ F hF
          intro x y hxy hy
          simp only [List.reverse_nil] at hxy
          exact absurd (List.append_eq_nil.mp hxy.symm).2 hy
      | none =>
        rw [hm] at hF
        have hcl : cs.length ≤ fuel := by
          simp only [List.length_cons] at hlen
          omega
        refine ih cs (c :: acc) hcl ?_ F hF
        intro x y hxy hy
        rcases List.eq_nil_or_concat y with hnil | ⟨y2, d, hcat⟩
        · exact absurd hnil hy
        · subst hcat
          rw [List.concat_eq_append] at hxy ⊢
          rw [List.reverse_cons, ← List.append_assoc] at hxy
          obtain ⟨hfront, hlast⟩ := List.append_inj' hxy rfl
          have hdc : d = c := by simpa using hlast.symm
          subst hdc
          cases y2 with
          | nil => simpa using hm
          | cons a as =>
            have h2 := hinv x (a :: as) hfront (by simp)
            simpa [List.append_assoc] using h2

/-- No fragment produced by the split contains a marker occurrence. -/
lemma splitChars_no_marker (t : List Char) :
    ∀ F ∈ splitChars t, hasMarker F = false := by
  refine splitAuxF_no_marker t.length t [] le_rfl ?_
  intro x y hxy hy
  simp only [List.reverse_nil] at hxy
  exact absurd (List.append_eq_nil.mp hxy.symm).2 hy

lemma snd_mem_of_mem_enumFrom {α : Type} {ip : Nat × α} :
    ∀ {n : Nat} {l : List α}, ip ∈ l.enumFrom n → ip.2 ∈ l := by
  intro n l
  induction l generalizing n with
  | nil => intro h; simp [List.enumFrom] at h
  | cons a as ih =>
    intro h
    rw [List.enumFrom] at h
    rcases List.mem_cons.mp h with h | h
    · subst h; exact List.mem_cons_self _ _
    · exact List.mem_cons_of_mem _ (ih h)

/-- Every produced page content is the trim of a fragment of the split
whose trim is non-empty. -/
lemma segmentPages_content_src {t : List Char} {pg : StoryPage}
    (h : pg ∈ segmentPages t) :
    ∃ part, part ∈ splitChars t ∧ 0 < (trimChars part).length ∧
      pg.content = trimChars part := by
  unfold segmentPages at h
  obtain ⟨ip, hip, hpg⟩ := List.mem_map.mp h
  have h2 := snd_mem_of_mem_enumFrom hip
  obtain ⟨hmem, hpos⟩ := List.mem_filter.mp h2
  exact ⟨ip.2, hmem, by simpa using hpos, by rw [← hpg]⟩

lemma enumFrom_map_succ {α : Type} :
    ∀ (l : List α) (n : Nat),
      (l.enumFrom n).map (fun ip => ip.1 + 1) = List.range' (n + 1) l.length := by
  intro l
  induction l with
  | nil => intro n; simp [List.range']
  | cons a as ih => intro n; simp [List.enumFrom, List.range', ih]

/-- The ids of a segmentation are exactly 1, 2, ..., n in order. -/
lemma segmentPages_ids (t : List Char) :
    (segmentPages t).map (fun pg => pg.id) =
      List.range' 1 (segmentPages t).length := by
  unfold segmentPages
  simp only [List.map_map, List.length_map]
  have he : (List.enum ((splitChars t).filter (fun p => 0 < (trimChars p).length))).map
      ((fun pg : StoryPage => pg.id) ∘ (fun ip : Nat × List Char => ⟨ip.1 + 1, trimChars ip.2⟩)) =
      (List.enum ((splitChars t).filter (fun p => 0 < (trimChars p).length))).map
      (fun ip => ip.1 + 1) := by
    apply List.map_congr_left
    intro ip _
    rfl
  rw [he, List.enum, enumFrom_map_succ]
  simp [List.enumFrom_length]

/-! ### Lemmas about the generation loop -/

/-- State reached after successfully synthesising the pages `pre`, starting
from `s`: one result appended and one progress increment per page. -/
def advanceState (tts : List Char → TTSConfig → Except String Nat)
    (mkUrl : Nat → String) (pre : List StoryPage) (s : PipelineState) :
    PipelineState :=
  { s with
      results := s.results ++
        pre.map (fun p => mkResult mkUrl p (okVal (tts p.content s.config))),
      progressCurrent := s.progressCurrent + pre.length }

lemma runPagesAux_nil (tts : List Char → TTSConfig → Except String Nat)
    (mkUrl : Nat → String) (s : PipelineState) :
    runPagesAux tts mkUrl [] s = ⟨s, [], []⟩ := rfl

lemma runPagesAux_cons_error {tts : List Char → TTSConfig → Except String Nat}
    {mkUrl : Nat → String} {p : StoryPage} {ps : List StoryPage}
    {s : PipelineState} {e : String} (heq : tts p.content s.config = .error e) :
    runPagesAux tts mkUrl (p :: ps) s =
      ⟨{ s with error := some (errFallback e) }, [p.content], []⟩ := by
  unfold runPagesAux
  rw [heq]


lemma runPagesAux_cons_ok {tts : List Char → TTSConfig → Except String Nat}
    {mkUrl : Nat → String} {p : StoryPage} {ps : List StoryPage}
    {s : PipelineState} {b : Nat} (heq : tts p.content s.config = .ok b) :
    runPagesAux tts mkUrl (p :: ps) s =
      ⟨(runPagesAux tts mkUrl ps
          { s with results := s.results ++ [mkResult mkUrl p b],
                   progressCurrent := s.progressCurrent + 1 }).state,
       p.content :: (runPagesAux tts mkUrl ps
          { s with results := s.results ++ [mkResult mkUrl p b],
                   progressCurrent := s.progressCurrent + 1 }).calls,
       mkUrl b :: (runPagesAux tts mkUrl ps
          { s with results := s.results ++ [mkResult mkUrl p b],
                   progressCurrent := s.progressCurrent + 1 }).created⟩ := by
  conv_lhs => rw [runPagesAux]
  rw [heq]

/-- Processing `pre ++ rest` when every page of `pre` synthesises
successfully: the loop first advances through `pre`, then continues on
`rest` from the advanced state; the call and URL logs are the
concatenations. -/
lemma runPagesAux_ok_seg (tts : List Char → TTSConfig → Except String Nat)
    (mkUrl : Nat → String) (pre : List StoryPage) :
    ∀ (rest : List StoryPage) (s : PipelineState),
      (∀ p ∈ pre, exceptOk (tts p.content s.config) = true) →
      runPagesAux tts mkUrl (pre ++ rest) s =
        ⟨(runPagesAux tts mkUrl rest (advanceState tts mkUrl pre s)).state,
         pre.map (fun p => p.content) ++
           (runPagesAux tts mkUrl rest (advanceState tts mkUrl pre s)).calls,
         pre.map (fun p => mkUrl (okVal (tts p.content s.config))) ++
           (runPagesAux tts mkUrl rest (advanceState tts mkUrl pre s)).created⟩ := by
  induction pre with
  | nil =>
    intro rest s _
    have hs : advanceState tts mkUrl [] s = s := by
      simp [advanceState]
    rw [hs]
    simp
  | cons p ps ih =>
    intro rest s hok
    have hp : exceptOk (tts p.content s.config) = true :=
      hok p (List.mem_cons_self _ _)
    cases heq : tts p.content s.config with
    | error e => rw [heq] at hp; simp [exceptOk] at hp
    | ok b =>
      have hrec := ih rest
        { s with results := s.results ++ [mkResult mkUrl p b],
                 progressCurrent := s.progressCurrent + 1 }
        (by
          intro q hq
          exact hok q (List.mem_cons_of_mem _ hq))
      have hadv : advanceState tts mkUrl ps
          { s with results := s.results ++ [mkResult mkUrl p b],
                   progressCurrent := s.progressCurrent + 1 } =
          advanceState tts mkUrl (p :: ps) s := by
        unfold advanceState
        rw [List.map_cons, heq]
        simp [okVal, List.append_assoc]
        try omega
      rw [List.cons_append, runPagesAux_cons_ok heq, hrec, hadv]
      simp [heq, okVal]

/-! ### Concrete fixtures for witnesses and counterexamples -/

def cfg0 : TTSConfig := ⟨Emotion.Gentle, Tone.Warm, Speed.Normal⟩

/-- Deterministic object-URL factory for concrete runs. -/
def urlOf (b : Nat) : String := ("blob:" ++ Nat.repr b)

/-- Synthesis stub that always succeeds with blob `b`. -/
def ttsConst (b : Nat) : List Char → TTSConfig → Except String Nat :=
  fun _ _ => Except.ok b

/-- Synthesis stub that always fails. -/
def ttsFailAll : List Char → TTSConfig → Except String Nat :=
  fun _ _ => Except.error ("boom")

/-- Synthesis stub that fails exactly on the given text. -/
def ttsFailOn (bad : List Char) : List Char → TTSConfig → Except String Nat :=
  fun c _ => if c = bad then Except.error ("boom") else Except.ok 7

def pageA : StoryPage := ⟨1, ("Once").data⟩

def pageB : StoryPage := ⟨2, ("upon").data⟩

/-- A freshly parsed two-page session, not running. -/
def sTwoPages : PipelineState :=
  ⟨some ("story.txt"), [pageA, pageB], cfg0, false, [], none, 0, 0⟩

def oldAudio : GeneratedAudio := ⟨9, 9, ("blob:9"), ("Page_9.wav")⟩

/-- A state captured mid-run: `isProcessing` is set and one clip exists. -/
def sBusy : PipelineState :=
  ⟨some ("story.txt"), [pageA], cfg0, true, [oldAudio], none, 1, 1⟩

/-- A state left over from an earlier session: stale results, stale error
and a stale progress pair. -/
def sStale : PipelineState :=
  ⟨some ("old.txt"), [pageA], cfg0, false, [oldAudio], some ("old error"), 2, 3⟩

/-! ### Claim theorems -/

/-- Claim C7 (confirmed): the completion flag is true exactly when the
result count equals the page count, there is at least one page, and no run
is in progress.  The source tests `results.length > 0` where the claim
says `pages.length > 0`; under the equality of the two lengths these
coincide. -/
theorem isComplete_iff (s : PipelineState) :
    isComplete s = true ↔
      (s.results.length = s.pages.length ∧ 0 < s.pages.length ∧
        s.isProcessing = false) := by
  unfold isComplete
  simp only [Bool.and_eq_true, decide_eq_true_eq, beq_iff_eq, Bool.not_eq_true']
  constructor
  · rintro ⟨⟨h1, h2⟩, h3⟩
    refine ⟨h2, ?_, h3⟩
    omega
  · rintro ⟨h1, h2, h3⟩
    refine ⟨⟨?_, h1⟩, h3⟩
    omega

/-- Claim C6 counterexample: loading a new file does not clear the
progress pair.  From a state with a stale progress pair (2, 3), parsing a
new file leaves both counters untouched and non-zero, while the claim
requires them to be cleared. -/
theorem parseFileOk_keeps_progress :
    (parseFileOk ("new.txt") (("Page 1 hi").data) sStale).progressTotal = 3 ∧
    ¬ (parseFileOk ("new.txt") (("Page 1 hi").data) sStale).progressTotal = 0 ∧
    (parseFileOk ("new.txt") (("Page 1 hi").data) sStale).progressCurrent = 2 ∧
    ¬ (parseFileOk ("new.txt") (("Page 1 hi").data) sStale).progressCurrent = 0 := by
  exact ⟨rfl, by decide, rfl, by decide⟩

/-- Claim C6 (amended): resetting clears pages, results, both progress
counters and the error slot in one transition; loading a new file clears
pages (replacing them with the new segmentation), results and the error
slot in one transition but leaves the progress counters unchanged. -/
theorem resetState_and_load_effects (s : PipelineState) (name : String)
    (t : List Char) :
    (resetState s).pages = [] ∧ (resetState s).results = [] ∧
    (resetState s).progressCurrent = 0 ∧ (resetState s).progressTotal = 0 ∧
    (resetState s).error = none ∧
    (parseFileOk name t s).pages = segmentPages t ∧
    (parseFileOk name t s).results = [] ∧
    (parseFileOk name t s).error = none ∧
    (parseFileOk name t s).progressCurrent = s.progressCurrent ∧
    (parseFileOk name t s).progressTotal = s.progressTotal :=
  ⟨rfl, rfl, rfl, rfl, rfl, rfl, rfl, rfl, rfl, rfl⟩

/-- Claim C8 (code bug): the source never calls `URL.revokeObjectURL`, so
the object URLs created for the generated audio stay live across both
`reset` and a new-file load.  Concretely: a successful two-page run
creates two handles, and both remain live after resetting and after
loading a new file, even though the state no longer references them. -/
theorem resetState_leaves_urls_live :
    (resetStateS (generateAllS (ttsConst 5) urlOf ⟨sTwoPages, []⟩)).liveUrls =
      [("blob:5"), ("blob:5")] ∧
    (resetStateS (generateAllS (ttsConst 5) urlOf ⟨sTwoPages, []⟩)).st.results = [] ∧
    (parseFileOkS ("new.txt") (("Page 1 hi").data)
        (generateAllS (ttsConst 5) urlOf ⟨sTwoPages, []⟩)).liveUrls =
      [("blob:5"), ("blob:5")] := by
  exact ⟨by decide, by decide, by decide⟩

/-- Claim C9 counterexample: a failed preview does mutate the pipeline
state, contrary to the claim: the error slot is set to the fixed preview
failure message. -/
theorem previewSample_failure_sets_error :
    sTwoPages.error = none ∧
    (previewSample ttsFailAll sTwoPages).1.error =
      some ("Failed to preview audio.") := by
  exact ⟨rfl, by decide⟩

/-- Claim C9 (amended): with at least one page, preview sends the
synthesis collaborator exactly one text, namely at most the first 100
characters of the first page; on success the state is entirely unchanged,
and on failure the only mutation is the error slot being set to the fixed
preview failure message. -/
theorem previewSample_behavior
    (tts : List Char → TTSConfig → Except String Nat) (s : PipelineState)
    (p : StoryPage) (ps : List StoryPage) (hp : s.pages = p :: ps) :
    (previewSample tts s).2 = [p.content.take 100] ∧
    (p.content.take 100).length ≤ 100 ∧
    (∀ b, tts (p.content.take 100) s.config = .ok b →
      (previewSample tts s).1 = s) ∧
    (∀ e, tts (p.content.take 100) s.config = .error e →
      (previewSample tts s).1 =
        { s with error := some ("Failed to preview audio.") }) := by
  refine ⟨?_, ?_, ?_, ?_⟩
  · cases h : tts (p.content.take 100) s.config <;>
      simp [previewSample, hp, h]
  · exact List.length_take_le 100 p.content
  · intro b hb
    simp [previewSample, hp, hb]
  · intro e he
    simp [previewSample, hp, he]

/-- Claim C9 witness: the amended preview behaviour evaluated on a
concrete two-page state with an always-succeeding synthesiser. -/
theorem previewSample_behavior_witness :
    (previewSample (ttsConst 5) sTwoPages).2 = [(("Once").data).take 100] ∧
    (previewSample (ttsConst 5) sTwoPages).1 = sTwoPages := by
  have h := previewSample_behavior (ttsConst 5) sTwoPages pageA [pageB] rfl
  exact ⟨h.1, h.2.2.1 5 rfl⟩

/-- The recorded failure message is never the empty string: a non-empty
synthesis message is kept, and an empty one falls back to the default
text. -/
lemma errFallback_ne (e : String) : errFallback e ≠ ("") := by
  unfold errFallback
  split
  · decide
  · assumption


/-- Claim C1 (confirmed): when synthesis fails on some page, the settled
run keeps exactly the results of the pages before it in order, clears the
running flag, records a non-empty failure message, and makes no synthesis
call for any later page. -/
theorem generateAll_abort_keeps_completed
    (tts : List Char → TTSConfig → Except String Nat) (mkUrl : Nat → String)
    (s : PipelineState) (pre : List StoryPage) (pk : StoryPage)
    (post : List StoryPage) (e : String)
    (hp : s.pages = pre ++ pk :: post)
    (hok : ∀ p ∈ pre, exceptOk (tts p.content s.config) = true)
    (hfail : tts pk.content s.config = .error e) :
    (generateAll tts mkUrl s).state.results.map (fun r => r.pageId) =
      pre.map (fun p => p.id) ∧
    (generateAll tts mkUrl s).state.isProcessing = false ∧
    (generateAll tts mkUrl s).state.error = some (errFallback e) ∧
    errFallback e ≠ ("") ∧
    (generateAll tts mkUrl s).calls =
      pre.map (fun p => p.content) ++ [pk.content] := by
  have hne : ¬ s.pages.length = 0 := by
    rw [hp]
    simp
  unfold generateAll
  rw [if_neg hne, hp]
  dsimp only
  have hok1 : ∀ p ∈ pre, exceptOk (tts p.content
      (⟨s.file, pre ++ pk :: post, s.config, true, [], s.error, 0,
        (pre ++ pk :: post).length⟩ : PipelineState).config) = true := hok
  rw [runPagesAux_ok_seg tts mkUrl pre (pk :: post)
    ⟨s.file, pre ++ pk :: post, s.config, true, [], s.error, 0,
      (pre ++ pk :: post).length⟩ hok1]
  rw [runPagesAux_cons_error
    (show tts pk.content (advanceState tts mkUrl pre
      ⟨s.file, pre ++ pk :: post, s.config, true, [], s.error, 0,
        (pre ++ pk :: post).length⟩).config = .error e from hfail)]
  refine ⟨?_, rfl, rfl, errFallback_ne e, rfl⟩
  simp [advanceState, mkResult]

/-- Claim C1 witness: a concrete two-page run failing on the second page
keeps exactly the first clip, stops running, records the message, and
calls the synthesiser only for the first two pages. -/
theorem generateAll_abort_keeps_completed_witness :
    (generateAll (ttsFailOn (("upon").data)) urlOf sTwoPages).state.results.map
        (fun r => r.pageId) = [pageA].map (fun p => p.id) ∧
    (generateAll (ttsFailOn (("upon").data)) urlOf sTwoPages).state.isProcessing
        = false ∧
    (generateAll (ttsFailOn (("upon").data)) urlOf sTwoPages).state.error =
        some (errFallback ("boom")) ∧
    errFallback ("boom") ≠ ("") ∧
    (generateAll (ttsFailOn (("upon").data)) urlOf sTwoPages).calls =
        [pageA].map (fun p => p.content) ++ [pageB.content] :=
  generateAll_abort_keeps_completed (ttsFailOn (("upon").data)) urlOf sTwoPages
    [pageA] pageB [] ("boom") (by decide) (by decide) rfl

/-- Claim C2 (confirmed): in a run where every synthesis call succeeds,
the produced results match the pages index by index on ids, and when the
pages came from the segmenter the recorded page ids are exactly the
ascending sequence 1, 2, ..., n. -/
theorem generateAll_sequential_ordering
    (tts : List Char → TTSConfig → Except String Nat) (mkUrl : Nat → String)
    (s : PipelineState) (hne : s.pages ≠ [])
    (hok : ∀ p ∈ s.pages, exceptOk (tts p.content s.config) = true) :
    (generateAll tts mkUrl s).state.results.map (fun r => r.pageId) =
      s.pages.map (fun p => p.id) ∧
    (∀ t : List Char, s.pages = segmentPages t →
      (generateAll tts mkUrl s).state.results.map (fun r => r.pageId) =
        List.range' 1 s.pages.length) := by
  have hlen : ¬ s.pages.length = 0 := by
    intro h
    exact hne (List.length_eq_zero.mp h)
  have hmain : (generateAll tts mkUrl s).state.results.map (fun r => r.pageId) =
      s.pages.map (fun p => p.id) := by
    unfold generateAll
    rw [if_neg hlen]
    dsimp only
    have hok1 : ∀ p ∈ s.pages, exceptOk (tts p.content
        (⟨s.file, s.pages, s.config, true, [], s.error, 0,
          s.pages.length⟩ : PipelineState).config) = true := hok
    have hsplit := runPagesAux_ok_seg tts mkUrl s.pages []
      ⟨s.file, s.pages, s.config, true, [], s.error, 0, s.pages.length⟩ hok1
    rw [List.append_nil] at hsplit
    rw [hsplit, runPagesAux_nil]
    simp [advanceState, mkResult]
  refine ⟨hmain, ?_⟩
  intro t ht
  rw [hmain, ht, segmentPages_ids]

/-- Claim C2 witness: a concrete all-success run over two segmenter-made
pages produces results whose ids are 1 and 2 in order. -/
theorem generateAll_sequential_ordering_witness :
    (generateAll (ttsConst 5) urlOf sTwoPages).state.results.map
        (fun r => r.pageId) = [1, 2] ∧
    (generateAll (ttsConst 5) urlOf sTwoPages).state.results.map
        (fun r => r.pageId) = List.range' 1 sTwoPages.pages.length := by
  have h := generateAll_sequential_ordering (ttsConst 5) urlOf sTwoPages
    (by decide) (by decide)
  exact ⟨by rw [h.1]; decide,
    h.2 (("Page 1 Once Page 2 upon").data) (by decide)⟩

/-- Claim C3 counterexample: the word followed directly by digits is not a
delimiter.  On the input made of the letter a, the text page7 and the
letter b, the segmenter returns a single page still containing page7,
whereas the claim predicts a split into two pages with the marker
discarded. -/
theorem segmentPages_page7_not_delimiter :
    segmentPages (("a page7 b").data) = [⟨1, ("a page7 b").data⟩] ∧
    segmentPages (("a page7 b").data) ≠ [⟨1, ("a").data⟩, ⟨2, ("b").data⟩] := by
  exact ⟨by decide, by decide⟩

/-- Claim C3 (amended): the segmenter splits at every case-insensitive
occurrence of the literal word Page followed by one or more whitespace
characters and then one or more digits; the whole marker is discarded and
no produced page content contains such a marker.  An occurrence where the
digits directly follow the word, with no whitespace between, is not a
delimiter. -/
theorem segmentPages_marker_spec :
    (∀ t : List Char, ∀ pg ∈ segmentPages t, hasMarker pg.content = false) ∧
    segmentPages (("aPage 7b").data) = [⟨1, ("a").data⟩, ⟨2, ("b").data⟩] ∧
    segmentPages (("A pAgE  12 B").data) = [⟨1, ("A").data⟩, ⟨2, ("B").data⟩] ∧
    segmentPages (("x page9 y").data) = [⟨1, ("x page9 y").data⟩] := by
  refine ⟨?_, by decide, by decide, by decide⟩
  intro t pg hm
  obtain ⟨part, hpart, hpos, hc⟩ := segmentPages_content_src hm
  have hfrag := splitChars_no_marker t part hpart
  rw [trimChars_decomp part] at hfrag
  rw [hc]
  exact hasMarker_infix_free hfrag

/-- Claim C3 witness: the no-marker-in-content property evaluated at the
first page produced from a concrete marked input. -/
theorem segmentPages_marker_spec_witness :
    StoryPage.mk 1 (("a").data) ∈ segmentPages (("aPage 7b").data) ∧
    hasMarker ((StoryPage.mk 1 (("a").data)).content) = false := by
  have h := segmentPages_marker_spec
  have hm : StoryPage.mk 1 (("a").data) ∈ segmentPages (("aPage 7b").data) := by
    decide
  exact ⟨hm, h.1 (("aPage 7b").data) _ hm⟩

/-- Claim C4 (confirmed): every produced page content is non-empty, is its
own trim (hence not whitespace-only), and the ids of an n-page
segmentation are exactly 1, 2, ..., n with no gaps or repeats. -/
theorem segmentPages_wellformed (t : List Char) :
    (segmentPages t).map (fun pg => pg.id) =
      List.range' 1 (segmentPages t).length ∧
    (∀ pg ∈ segmentPages t,
      pg.content ≠ [] ∧ trimChars pg.content = pg.content) := by
  refine ⟨segmentPages_ids t, ?_⟩
  intro pg hm
  obtain ⟨part, hpart, hpos, hc⟩ := segmentPages_content_src hm
  constructor
  · rw [hc]
    exact List.length_pos.mp hpos
  · rw [hc, trimChars_idem]

/-- Claim C4 witness: the well-formedness facts evaluated on a concrete
two-marker input and its first produced page. -/
theorem segmentPages_wellformed_witness :
    (segmentPages (("Page 1 Once Page 2 upon").data)).map (fun pg => pg.id) =
      List.range' 1 2 ∧
    StoryPage.mk 1 (("Once").data) ∈
      segmentPages (("Page 1 Once Page 2 upon").data) ∧
    ("Once").data ≠ [] ∧ trimChars (("Once").data) = ("Once").data := by
  have h := segmentPages_wellformed (("Page 1 Once Page 2 upon").data)
  have hm : StoryPage.mk 1 (("Once").data) ∈
      segmentPages (("Page 1 Once Page 2 upon").data) := by decide
  have h2 := h.2 _ hm
  exact ⟨by rw [h.1]; decide, hm, h2.1, h2.2⟩

/-- Claim C5 counterexample: invoking the generator while a run is marked
in progress is not rejected and does change the state: from a busy state
holding one old clip, the call replaces the results and the progress
pair. -/
theorem generateAll_busy_not_rejected :
    sBusy.isProcessing = true ∧
    (generateAll (ttsConst 5) urlOf sBusy).state.results ≠ sBusy.results ∧
    (generateAll (ttsConst 5) urlOf sBusy).state ≠ sBusy := by
  exact ⟨rfl, by decide, by decide⟩

/-- Claim C5 (amended): the generator has no in-progress guard.  The only
rejection is an empty page list, which returns with no state change and no
synthesis call; with a non-empty page list the call proceeds identically
whether or not a run is already marked in progress (the UI avoids this by
not rendering the generate control while a run is active). -/
theorem generateAll_no_running_guard
    (tts : List Char → TTSConfig → Except String Nat) (mkUrl : Nat → String)
    (s : PipelineState) :
    (s.pages = [] → generateAll tts mkUrl s = ⟨s, [], []⟩) ∧
    (s.pages ≠ [] →
      generateAll tts mkUrl { s with isProcessing := true } =
        generateAll tts mkUrl { s with isProcessing := false }) := by
  constructor
  · intro h
    unfold generateAll
    rw [if_pos (by rw [h]; rfl)]
  · intro h
    simp [generateAll, List.length_eq_zero, h]

/-- Claim C5 witness: the amended no-guard behaviour evaluated on concrete
states: the empty-page no-op and the insensitivity to the running flag. -/
theorem generateAll_no_running_guard_witness :
    generateAll (ttsConst 5) urlOf { sTwoPages with pages := [] } =
      ⟨{ sTwoPages with pages := [] }, [], []⟩ ∧
    generateAll (ttsConst 5) urlOf { sTwoPages with isProcessing := true } =
      generateAll (ttsConst 5) urlOf { sTwoPages with isProcessing := false } := by
  have h1 := generateAll_no_running_guard (ttsConst 5) urlOf
    { sTwoPages with pages := [] }
  have h2 := generateAll_no_running_guard (ttsConst 5) urlOf sTwoPages
  exact ⟨h1.1 rfl, h2.2 (by decide)⟩

/-- Claim C10 (confirmed): starting a run on a non-empty page list first
discards the previously accumulated results and resets the progress pair
to zero out of the page count: the outcome does not depend on the old
results or progress values, and even when the very first synthesis call
fails the settled state holds no results, progress (0, page count), and
exactly one call was made. -/
theorem generateAll_fresh_run
    (tts : List Char → TTSConfig → Except String Nat) (mkUrl : Nat → String)
    (s : PipelineState) (p : StoryPage) (ps : List StoryPage)
    (hp : s.pages = p :: ps) :
    (∀ r0 c0 t0, generateAll tts mkUrl s =
      generateAll tts mkUrl
        { s with results := r0, progressCurrent := c0, progressTotal := t0 }) ∧
    (∀ e, tts p.content s.config = .error e →
      (generateAll tts mkUrl s).state.results = [] ∧
      (generateAll tts mkUrl s).state.progressCurrent = 0 ∧
      (generateAll tts mkUrl s).state.progressTotal = s.pages.length ∧
      (generateAll tts mkUrl s).calls = [p.content]) := by
  have hne : ¬ s.pages.length = 0 := by
    rw [hp]
    simp
  constructor
  · intro r0 c0 t0
    have hne2 : ¬ ({ s with results := r0, progressCurrent := c0, progressTotal := t0 } : PipelineState).pages.length = 0 := hne
    unfold generateAll
    rw [if_neg hne, if_neg hne2]
  · intro e he
    unfold generateAll
    rw [if_neg hne, hp]
    dsimp only
    rw [runPagesAux_cons_error
      (show tts p.content (⟨s.file, p :: ps, s.config, true, [], s.error, 0,
        (p :: ps).length⟩ : PipelineState).config = .error e from he)]
    exact ⟨rfl, rfl, rfl, rfl⟩

/-- Claim C10 witness: from a stale state carrying an old clip and stale
progress, a run whose first synthesis call fails still ends with empty
results and a reset progress pair. -/
theorem generateAll_fresh_run_witness :
    (generateAll ttsFailAll urlOf sStale =
      generateAll ttsFailAll urlOf
        { sStale with results := [], progressCurrent := 0,
                      progressTotal := 0 }) ∧
    (generateAll ttsFailAll urlOf sStale).state.results = [] ∧
    (generateAll ttsFailAll urlOf sStale).state.progressCurrent = 0 ∧
    (generateAll ttsFailAll urlOf sStale).state.progressTotal =
      sStale.pages.length ∧
    (generateAll ttsFailAll urlOf sStale).calls = [pageA.content] := by
  have h := generateAll_fresh_run ttsFailAll urlOf sStale pageA [] rfl
  have h2 := h.2 ("boom") rfl
  exact ⟨h.1 [] 0 0, h2.1, h2.2.1, h2.2.2.1, h2.2.2.2⟩
